import Mathlib

/-!
Verification of the context-capture pipeline and activity analyzer of the
`efficiency-cockpit` repository (Rust), as a shallow embedding in Lean 4.

Conventions of the embedding:
* `DateTime<Utc>` instants and `chrono::Duration` values are modelled as `Int`
  seconds (the claims under study only involve whole minutes and days, so the
  sub-second precision of `chrono` is irrelevant to them).
* SQLite tables are modelled as Lean lists of rows; `ORDER BY timestamp DESC`
  is modelled with `List.insertionSort` over the relation "later or equal
  timestamp" (a stable sort, extensionally equal to any stable sort by the
  same key, which is what SQLite's ordered scan delivers up to the order of
  timestamp ties, left unspecified by SQL).
* Fallible database reads (`rusqlite` errors) are modelled with an explicit
  `read_fails` flag on the database model: when set, every read returns
  `Except.error`, which is how `gatekeeper.rs` sees a failing query.
* `u32`/`u64`/`usize` counts are modelled as `Nat`.
-/

/-- `db.rs` `FileEventType`: type of a file event.  All four constructors of
the Rust enum are embedded, including `Renamed`, which the watcher pipeline
never produces. -/
inductive FileEventType where
  | created
  | modified
  | deleted
  | renamed
deriving DecidableEq, Repr

/-- `db.rs` `Snapshot`: a snapshot of work context at a point in time. -/
structure Snapshot where
  id : String
  timestamp : Int
  active_file : Option String
  active_directory : Option String
  git_branch : Option String
  notes : Option String
deriving DecidableEq, Repr

/-- `db.rs` `FileEvent`: a file change event row. -/
structure FileEvent where
  id : String
  timestamp : Int
  path : String
  event_type : FileEventType
deriving DecidableEq, Repr

/-- `db.rs` `ActivitySummary`: activity summary for a time period. -/
structure ActivitySummary where
  total_events : Nat
  files_modified : Nat
  files_created : Nat
  most_active_directory : Option String
deriving DecidableEq, Repr

/-- The `db.rs` `Database`, modelled as its two tables plus a flag that
models an underlying SQLite failure on read queries (when set, reads return
`Except.error`, the shape `gatekeeper.rs` observes as `Err(_)`). -/
structure Database where
  snapshots : List Snapshot
  file_events : List FileEvent
  read_fails : Bool
deriving DecidableEq, Repr

/-- The ordering used by `ORDER BY timestamp DESC` on snapshots: `a` comes no
later than `b` in the scan when `b.timestamp ≤ a.timestamp`. -/
def snapGE (a b : Snapshot) : Prop := b.timestamp ≤ a.timestamp

instance : DecidableRel snapGE :=
  fun a b => inferInstanceAs (Decidable (b.timestamp ≤ a.timestamp))

instance : IsTotal Snapshot snapGE := ⟨fun a b => Int.le_total b.timestamp a.timestamp⟩

instance : IsTrans Snapshot snapGE := ⟨fun _ _ _ hab hbc => Int.le_trans hbc hab⟩

/-- `db.rs` `Database::get_recent_snapshots`: the most recent `limit`
snapshots, newest first (`ORDER BY timestamp DESC LIMIT ?1`). -/
def Database.get_recent_snapshots (db : Database) (limit : Nat) : Except Unit (List Snapshot) :=
  if db.read_fails then Except.error ()
  else Except.ok ((List.insertionSort snapGE db.snapshots).take limit)

/-- `db.rs` `Database::cleanup_old_snapshots`: `DELETE FROM snapshots WHERE id
NOT IN (SELECT id FROM snapshots ORDER BY timestamp DESC LIMIT ?1)`.  Returns
the database after the delete together with the number of deleted rows (what
`conn.execute` reports). -/
def Database.cleanup_old_snapshots (db : Database) (max_snapshots : Nat) : Database × Nat :=
  let kept := ((List.insertionSort snapGE db.snapshots).take max_snapshots).map (fun s => s.id)
  let remaining := db.snapshots.filter (fun r => decide (r.id ∈ kept))
  ({ db with snapshots := remaining },
   db.snapshots.countP (fun r => !(decide (r.id ∈ kept))))

/-- SQL `SUBSTR(path, 1, INSTR(path || '/', '/'))` from
`Database::get_activity_summary`: the first path segment of `path`, up to and
including its first slash (the whole of `path` when it has no slash). -/
def firstSegment (path : String) : String :=
  match (path.data ++ ['/']).findIdx? (fun c => c = '/') with
  | some i => String.mk (path.data.take (i + 1))
  | none => path

/-- The SQL row filter `timestamp >= ?1 AND timestamp <= ?2` used by every
query of `Database::get_activity_summary` (note: both bounds inclusive). -/
def inRange (since untilT : Int) (e : FileEvent) : Bool :=
  decide (since ≤ e.timestamp) && decide (e.timestamp ≤ untilT)

/-- The `most_active_directory` query of `Database::get_activity_summary`:
group the in-range events by first path segment, return a segment with the
highest event count, or `none` when there is no in-range event (SQL leaves
the choice among tied segments unspecified; the model scans the groups and
keeps the first one seen with a strictly larger count). -/
def most_active_dir (events : List FileEvent) (since untilT : Int) : Option String :=
  let dirs := (events.filter (inRange since untilT)).map (fun e => firstSegment e.path)
  dirs.foldl
    (fun best d =>
      match best with
      | none => some d
      | some b => if dirs.count b < dirs.count d then some d else some b)
    none

/-- The pure aggregate computed by `db.rs` `Database::get_activity_summary`
over the `file_events` table for the range `[since, untilT]` (both bounds
inclusive, as in the SQL above). -/
def get_activity_summary (events : List FileEvent) (since untilT : Int) : ActivitySummary :=
  { total_events := events.countP (inRange since untilT)
    files_modified := events.countP (fun e => inRange since untilT e && decide (e.event_type = FileEventType.modified))
    files_created := events.countP (fun e => inRange since untilT e && decide (e.event_type = FileEventType.created))
    most_active_directory := most_active_dir events since untilT }

/-- `Database::get_activity_summary` as the Rust caller sees it: a fallible
read. -/
def Database.get_activity_summary_res (db : Database) (since untilT : Int) :
    Except Unit ActivitySummary :=
  if db.read_fails then Except.error ()
  else Except.ok (get_activity_summary db.file_events since untilT)

/-- `gatekeeper.rs` `NudgeType`: type of nudge (all five constructors of the
Rust enum are embedded; `analyze` only ever produces the first, second and
fifth). -/
inductive NudgeType where
  | takeBreak
  | contextSwitch
  | focusReminder
  | dailySummary
  | highActivity
deriving DecidableEq, Repr

/-- `gatekeeper.rs` `NudgePriority`: priority level of a nudge (derives `Ord`
in Rust with `Low < Medium < High`). -/
inductive NudgePriority where
  | low
  | medium
  | high
deriving DecidableEq, Repr

/-- The derived Rust `Ord` on `NudgePriority`, as the rank of the
constructor. -/
def NudgePriority.toNat : NudgePriority → Nat
  | .low => 0
  | .medium => 1
  | .high => 2

/-- `gatekeeper.rs` `Nudge`: a nudge or suggestion from the gatekeeper. -/
structure Nudge where
  message : String
  nudge_type : NudgeType
  priority : NudgePriority
  timestamp : Int
deriving DecidableEq, Repr

/-- `gatekeeper.rs` `GatekeeperConfig`. -/
structure GatekeeperConfig where
  max_nudges_per_day : Nat
  enable_context_switch_nudges : Bool
  min_focus_time_minutes : Nat
  max_focus_time_minutes : Nat
deriving DecidableEq, Repr

/-- The `Default` impl of `GatekeeperConfig` in `gatekeeper.rs`. -/
def GatekeeperConfig.default : GatekeeperConfig :=
  { max_nudges_per_day := 2
    enable_context_switch_nudges := true
    min_focus_time_minutes := 15
    max_focus_time_minutes := 90 }

/-- `Gatekeeper::check_focus_time`: if the window is non-empty and its last
element (`oldest`, the window is newest-first) and first element (`newest`)
have equal `active_directory`, and `now - oldest.timestamp` strictly exceeds
`max_focus_time_minutes` minutes, a Medium-priority TakeBreak nudge. -/
def check_focus_time (cfg : GatekeeperConfig) (now : Int) (snapshots : List Snapshot) :
    Option Nudge :=
  match snapshots.getLast?, snapshots.head? with
  | some oldest, some newest =>
    if oldest.active_directory = newest.active_directory then
      if 60 * (cfg.max_focus_time_minutes : Int) < now - oldest.timestamp then
        some { message := "You've been working in the same area for over "
                 ++ toString cfg.max_focus_time_minutes
                 ++ " minutes. Consider taking a short break!"
               nudge_type := NudgeType.takeBreak
               priority := NudgePriority.medium
               timestamp := now }
      else none
    else none
  | _, _ => none

/-- `Gatekeeper::check_context_switches`: with at least 5 snapshots in the
window, count the distinct `Some` `active_directory` values among the 10 most
recent (the Rust `HashSet` size is the `List.dedup` length here); 5 or more
distinct values yield a Low-priority ContextSwitch nudge. -/
def check_context_switches (now : Int) (snapshots : List Snapshot) : Option Nudge :=
  if snapshots.length < 5 then none
  else
    let unique_dirs := ((snapshots.take 10).filterMap (fun s => s.active_directory)).dedup
    if 5 ≤ unique_dirs.length then
      some { message := "You've switched context frequently. Consider focusing on one area."
             nudge_type := NudgeType.contextSwitch
             priority := NudgePriority.low
             timestamp := now }
    else none

/-- `Gatekeeper::check_activity_level`: with at least 20 snapshots, if the
time span from the 20th-most-recent (index 19) to the newest is under 30
minutes, a Low-priority HighActivity nudge. -/
def check_activity_level (now : Int) (snapshots : List Snapshot) : Option Nudge :=
  if snapshots.length < 20 then none
  else
    match snapshots.head?, snapshots[19]? with
    | some newest, some oldest =>
      if newest.timestamp - oldest.timestamp < 30 * 60 then
        some { message := "High activity detected! You're making great progress."
               nudge_type := NudgeType.highActivity
               priority := NudgePriority.low
               timestamp := now }
      else none
    | _, _ => none

/-- The ordering `analyze` sorts by: `nudges.sort_by(|a, b| b.priority.cmp(&a.priority))`,
i.e. `a` may stand before `b` when `b.priority ≤ a.priority`. -/
def nudgeGE (a b : Nudge) : Prop := b.priority.toNat ≤ a.priority.toNat

instance : DecidableRel nudgeGE :=
  fun a b => inferInstanceAs (Decidable (b.priority.toNat ≤ a.priority.toNat))

instance : IsTotal Nudge nudgeGE := ⟨fun a b => Nat.le_total b.priority.toNat a.priority.toNat⟩

instance : IsTrans Nudge nudgeGE := ⟨fun _ _ _ hab hbc => Nat.le_trans hbc hab⟩

/-- The collection phase of `Gatekeeper::analyze`: the three checks pushed in
their fixed source order (focus, switch — only when enabled —, burst). -/
def triggered (cfg : GatekeeperConfig) (now : Int) (snapshots : List Snapshot) : List Nudge :=
  (check_focus_time cfg now snapshots).toList
    ++ (if cfg.enable_context_switch_nudges then (check_context_switches now snapshots).toList else [])
    ++ (check_activity_level now snapshots).toList

/-- The sort phase of `Gatekeeper::analyze`: Rust's `sort_by` is a stable
sort, modelled by the stable `List.insertionSort` over `nudgeGE`. -/
def sort_nudges (nudges : List Nudge) : List Nudge :=
  List.insertionSort nudgeGE nudges

/-- `Gatekeeper::analyze`, as a function of the snapshot window it fetches
(`get_recent_snapshots(50)`, newest first) and of the current time
`Utc::now()`: collect the checks' nudges, stable-sort by descending
priority, truncate to `max_nudges_per_day`. -/
def analyze (cfg : GatekeeperConfig) (now : Int) (snapshots : List Snapshot) : List Nudge :=
  (sort_nudges (triggered cfg now snapshots)).take cfg.max_nudges_per_day

/-- `gatekeeper.rs` `DailySummary`. -/
structure DailySummary where
  date : Int
  total_events : Nat
  files_modified : Nat
  files_created : Nat
  most_active_directory : Option String
deriving DecidableEq, Repr

/-- `DailySummary::to_message`: join the non-zero parts with " | ", or the
canonical no-activity text when every part is absent. -/
def DailySummary.to_message (s : DailySummary) : String :=
  let parts : List String :=
    (if 0 < s.total_events then [toString s.total_events ++ " file events"] else [])
      ++ (if 0 < s.files_modified then [toString s.files_modified ++ " files modified"] else [])
      ++ (if 0 < s.files_created then [toString s.files_created ++ " files created"] else [])
      ++ (match s.most_active_directory with
          | some dir => ["Most active: " ++ dir]
          | none => [])
  if parts.isEmpty then "No activity recorded today."
  else String.intercalate " | " parts

/-- Start of the UTC calendar day containing `date`
(`date.date_naive().and_hms_opt(0,0,0)`), with instants in seconds. -/
def dayStart (date : Int) : Int := 86400 * (Int.ediv date 86400)

/-- `start_of_day + Duration::days(1)`. -/
def dayEnd (date : Int) : Int := dayStart date + 86400

/-- `Gatekeeper::daily_summary`: query the activity aggregate for
`[start_of_day, end_of_day]` and fall back to the all-zero summary on a
query failure (`unwrap_or`). -/
def daily_summary (db : Database) (date : Int) : DailySummary :=
  let activity :=
    match db.get_activity_summary_res (dayStart date) (dayEnd date) with
    | Except.ok a => a
    | Except.error _ =>
      { total_events := 0
        files_modified := 0
        files_created := 0
        most_active_directory := none }
  { date := date
    total_events := activity.total_events
    files_modified := activity.files_modified
    files_created := activity.files_created
    most_active_directory := activity.most_active_directory }


/-- `watcher.rs` `WatchEvent`: a file change event from the watcher (paths
modelled as their string form). -/
structure WatchEvent where
  path : String
  event_type : FileEventType
deriving DecidableEq, Repr

/-- Modelled from the `notify` crate's public event taxonomy (v5 and later,
the API `watcher.rs` uses): the rename mode carried by a
`Modify(ModifyKind::Name(_))` notification. -/
inductive RenameMode where
  | any
  | to
  | from
  | both
  | other
deriving DecidableEq, Repr

/-- Modelled from the `notify` crate: the kind payload of a `Modify`
notification.  Renames are delivered as `ModifyKind::Name(_)` — `notify`
has no separate top-level rename kind. -/
inductive ModifyKind where
  | any
  | data
  | metadata
  | name (mode : RenameMode)
  | other
deriving DecidableEq, Repr

/-- Modelled from the `notify` crate: the top-level `EventKind` of a raw OS
notification.  The payloads of `Access`, `Create` and `Remove` are elided:
`watcher.rs` matches them with wildcards, so they never influence the
pipeline. -/
inductive EventKind where
  | any
  | access
  | create
  | modify (kind : ModifyKind)
  | remove
  | other
deriving DecidableEq, Repr

/-- Modelled from the `notify` crate: a raw OS notification, its kind and
the paths it concerns. -/
structure NotifyEvent where
  kind : EventKind
  paths : List String
deriving DecidableEq, Repr

/-- `FileWatcher::process_event`, parameterized by the watcher's
`should_ignore` predicate (`ignoreMatch`): map `Create`/`Modify`/`Remove`
kinds to `Created`/`Modified`/`Deleted`, drop every other kind, then emit
one `WatchEvent` per non-ignored path. -/
def process_event (ignoreMatch : String → Bool) (event : NotifyEvent) : List WatchEvent :=
  let event_type : Option FileEventType :=
    match event.kind with
    | EventKind.create => some FileEventType.created
    | EventKind.modify _ => some FileEventType.modified
    | EventKind.remove => some FileEventType.deleted
    | _ => none
  match event_type with
  | none => []
  | some t =>
    (event.paths.filter (fun p => !(ignoreMatch p))).map
      (fun p => { path := p, event_type := t })

/-- The pattern-compilation step of `FileWatcher::new`:
`ignore_patterns.iter().filter_map(|p| Regex::new(p).ok()).collect()` —
patterns that fail to compile are silently dropped.  Parametric in the
regex engine (`compile`), so the statement holds for any engine. -/
def compilePatterns {γ : Type} (compile : String → Option γ) (patterns : List String) : List γ :=
  patterns.filterMap compile

/-- `FileWatcher::should_ignore`: true iff some compiled pattern matches the
path's string form.  Parametric in the regex engine's match function. -/
def should_ignore {γ : Type} (isMatch : γ → String → Bool) (compiled : List γ)
    (path : String) : Bool :=
  compiled.any (fun pattern => isMatch pattern path)

/-- Modelled from the `regex` crate, for the fragment the repository's
patterns exercise: a pattern made of literal characters and backslash
escapes compiles to the escaped character sequence; patterns using other
regex metacharacters (or ending in a dangling backslash, which the real
crate also rejects) are outside the modelled fragment and are mapped to
`none`. -/
def litCompile (pattern : String) : Option (List Char) :=
  let rec go : List Char → Option (List Char)
    | [] => some []
    | '\\' :: c :: rest => (go rest).map (fun l => c :: l)
    | ['\\'] => none
    | c :: rest =>
      if c ∈ ['.', '*', '+', '?', '(', ')', '[', ']', '^', '$', '|'] then none
      else (go rest).map (fun l => c :: l)
  go pattern.data

/-- `needle` stands at the front of `hay`. -/
def litStartsWith : List Char → List Char → Bool
  | [], _ => true
  | _ :: _, [] => false
  | a :: as, b :: bs => a = b && litStartsWith as bs

/-- `needle` occurs contiguously somewhere in `hay`. -/
def litOccursIn (needle : List Char) : List Char → Bool
  | [] => litStartsWith needle []
  | b :: bs => litStartsWith needle (b :: bs) || litOccursIn needle bs

/-- Modelled from the `regex` crate: `Regex::is_match` is an unanchored
search, which for a literal pattern is substring containment. -/
def litIsMatch (lit : List Char) (s : String) : Bool :=
  litOccursIn lit s.data


/-- One step of the `HashMap::insert` loop in `deduplicate_events`, on the
association-list model of the map: an existing entry for the path is
overwritten in place, a new path is appended.  (The Rust `HashMap` iterates
its entries in an unspecified order; the spec leaves the output order
unspecified too, so the model fixes first-insertion key order.) -/
def insertLatest (m : List (String × WatchEvent)) (e : WatchEvent) :
    List (String × WatchEvent) :=
  if m.any (fun kv => kv.1 = e.path) then
    m.map (fun kv => if kv.1 = e.path then (e.path, e) else kv)
  else m ++ [(e.path, e)]

/-- `watcher.rs` `deduplicate_events`: fold the batch into a map keyed by
path (later events overwrite earlier ones), return the map's values. -/
def deduplicate_events (events : List WatchEvent) : List WatchEvent :=
  (events.foldl insertLatest []).map Prod.snd

/-- The last event for path `p` in the batch's arrival order (`none` when
the batch holds no event for `p`). -/
def lastFor : List WatchEvent → String → Option WatchEvent
  | [], _ => none
  | e :: evs, p =>
    match lastFor evs p with
    | some x => some x
    | none => if e.path = p then some e else none


theorem check_focus_time_fields {cfg : GatekeeperConfig} {now : Int} {s : List Snapshot}
    {n : Nudge} (h : check_focus_time cfg now s = some n) :
    n.nudge_type = NudgeType.takeBreak ∧ n.priority = NudgePriority.medium := by
  rcases hgl : s.getLast? with _ | o <;> rcases hh : s.head? with _ | w <;>
    simp only [check_focus_time, hgl, hh] at h
  all_goals try split_ifs at h
  all_goals first
    | exact h.elim
    | exact Option.noConfusion h
    | (injection h with h3; subst h3; exact ⟨rfl, rfl⟩)

theorem check_focus_time_some_iff (cfg : GatekeeperConfig) (now : Int) (s : List Snapshot) :
    (∃ n, check_focus_time cfg now s = some n) ↔
      ∃ o w, s.getLast? = some o ∧ s.head? = some w ∧
        o.active_directory = w.active_directory ∧
        60 * (cfg.max_focus_time_minutes : Int) < now - o.timestamp := by
  rcases hgl : s.getLast? with _ | o
  · simp [check_focus_time, hgl]
  rcases hh : s.head? with _ | w
  · simp [check_focus_time, hgl, hh]
  simp only [check_focus_time, hgl, hh]
  constructor
  · rintro ⟨n, h⟩
    split_ifs at h with h1 h2
    exact ⟨o, w, rfl, rfl, h1, h2⟩
  · rintro ⟨o', w', ho, hw, h1, h2⟩
    injection ho with ho
    injection hw with hw
    subst ho; subst hw
    rw [if_pos h1, if_pos h2]
    exact ⟨_, rfl⟩

theorem check_context_switches_fields {now : Int} {s : List Snapshot} {n : Nudge}
    (h : check_context_switches now s = some n) :
    n.nudge_type = NudgeType.contextSwitch ∧ n.priority = NudgePriority.low := by
  simp only [check_context_switches] at h
  split_ifs at h
  all_goals first
    | exact h.elim
    | exact Option.noConfusion h
    | (injection h with h3; subst h3; exact ⟨rfl, rfl⟩)

theorem check_context_switches_some_iff (now : Int) (s : List Snapshot) :
    (∃ n, check_context_switches now s = some n) ↔
      5 ≤ ((s.take 10).filterMap (fun x => x.active_directory)).dedup.length := by
  have habs : 5 ≤ ((s.take 10).filterMap (fun x => x.active_directory)).dedup.length →
      ¬ s.length < 5 := by
    intro h5
    have h1 : ((s.take 10).filterMap (fun x => x.active_directory)).dedup.length ≤
        ((s.take 10).filterMap (fun x => x.active_directory)).length :=
      (List.dedup_sublist _).length_le
    have h2 : ((s.take 10).filterMap (fun x => x.active_directory)).length ≤
        (s.take 10).length := List.length_filterMap_le _ _
    have h3 : (s.take 10).length ≤ s.length := by
      rw [List.length_take]; exact Nat.min_le_right _ _
    omega
  simp only [check_context_switches]
  split_ifs with h1 h2
  · constructor
    · rintro ⟨n, h⟩
      exact h.elim
    · intro h5
      exact absurd h1 (habs h5)
  · exact ⟨fun _ => h2, fun _ => ⟨_, rfl⟩⟩
  · constructor
    · rintro ⟨n, h⟩
      exact h.elim
    · intro h5
      exact absurd h5 h2

theorem check_activity_level_fields {now : Int} {s : List Snapshot} {n : Nudge}
    (h : check_activity_level now s = some n) :
    n.nudge_type = NudgeType.highActivity ∧ n.priority = NudgePriority.low := by
  rcases hh : s.head? with _ | w <;> rcases h19 : s[19]? with _ | o <;>
    simp only [check_activity_level, hh, h19] at h
  all_goals try split_ifs at h
  all_goals first
    | exact h.elim
    | exact Option.noConfusion h
    | (injection h with h3; subst h3; exact ⟨rfl, rfl⟩)

theorem mem_triggered_iff {n : Nudge} {cfg : GatekeeperConfig} {now : Int} {s : List Snapshot} :
    n ∈ triggered cfg now s ↔
      check_focus_time cfg now s = some n
        ∨ (cfg.enable_context_switch_nudges = true ∧ check_context_switches now s = some n)
        ∨ check_activity_level now s = some n := by
  unfold triggered
  rcases he : cfg.enable_context_switch_nudges <;>
    simp [he, List.mem_append, Option.mem_toList, eq_comm]

theorem mem_triggered_of_mem_analyze {n : Nudge} {cfg : GatekeeperConfig} {now : Int}
    {s : List Snapshot} (h : n ∈ analyze cfg now s) : n ∈ triggered cfg now s := by
  unfold analyze sort_nudges at h
  exact ((List.perm_insertionSort nudgeGE _).mem_iff).mp (List.mem_of_mem_take h)

theorem sort_nudges_cons (x : Nudge) (l : List Nudge) :
    sort_nudges (x :: l) = List.orderedInsert nudgeGE x (sort_nudges l) := rfl

theorem sort_nudges_cons_max (a : Nudge) (l : List Nudge) (h : ∀ b ∈ l, nudgeGE a b) :
    sort_nudges (a :: l) = a :: sort_nudges l := by
  rw [sort_nudges_cons]
  cases hs : sort_nudges l with
  | nil => rfl
  | cons b bs =>
    have hb : b ∈ l := by
      have : b ∈ sort_nudges l := by rw [hs]; exact List.mem_cons_self b bs
      exact ((List.perm_insertionSort nudgeGE l).mem_iff).mp this
    exact List.orderedInsert_of_le nudgeGE _ (h b hb)

theorem filter_orderedInsert (pr : NudgePriority) (x : Nudge) (l : List Nudge) :
    (List.orderedInsert nudgeGE x l).filter (fun n => decide (n.priority = pr))
      = if x.priority = pr
        then x :: l.filter (fun n => decide (n.priority = pr))
        else l.filter (fun n => decide (n.priority = pr)) := by
  induction l with
  | nil =>
    by_cases hx : x.priority = pr <;> simp [List.orderedInsert, List.filter_cons, hx]
  | cons b bs ih =>
    by_cases hr : nudgeGE x b
    · rw [List.orderedInsert_of_le nudgeGE _ hr]
      by_cases hx : x.priority = pr <;> simp [List.filter_cons, hx]
    · have hstep : List.orderedInsert nudgeGE x (b :: bs)
          = b :: List.orderedInsert nudgeGE x bs := by
        simp only [List.orderedInsert, if_neg hr]
      rw [hstep]
      by_cases hx : x.priority = pr
      · have hb : ¬ (b.priority = pr) := by
          intro hbp
          apply hr
          show b.priority.toNat ≤ x.priority.toNat
          rw [hbp, hx]
        simp [List.filter_cons, hx, hb, ih]
      · by_cases hb : b.priority = pr <;> simp [List.filter_cons, hx, hb, ih]

theorem filter_sort_nudges (pr : NudgePriority) (l : List Nudge) :
    (sort_nudges l).filter (fun n => decide (n.priority = pr))
      = l.filter (fun n => decide (n.priority = pr)) := by
  induction l with
  | nil => rfl
  | cons x xs ih =>
    rw [sort_nudges_cons, filter_orderedInsert]
    by_cases hx : x.priority = pr <;> simp [List.filter_cons, hx, ih]

/-- C5 (part): the output of `analyze` is sorted by non-increasing priority. -/
theorem analyze_pairwise (cfg : GatekeeperConfig) (now : Int) (s : List Snapshot) :
    (analyze cfg now s).Pairwise nudgeGE := by
  have hs : (sort_nudges (triggered cfg now s)).Pairwise nudgeGE :=
    List.sorted_insertionSort nudgeGE (triggered cfg now s)
  exact hs.sublist (List.take_sublist _ _)

theorem countP_option_le_one {α : Type} (o : Option α) (p : α → Bool) :
    o.toList.countP p ≤ 1 := by
  cases o
  · simp
  · exact le_trans (List.countP_le_length p) (by simp)

theorem countP_eq_zero_of_type {l : List Nudge} {ty : NudgeType} (t : NudgeType)
    (h : ∀ n ∈ l, n.nudge_type = ty) (hne : ty ≠ t) :
    l.countP (fun n => decide (n.nudge_type = t)) = 0 :=
  List.countP_eq_zero.mpr (fun n hn => by simp [h n hn]; exact fun hc => hne hc)

theorem countP_analyze_le (cfg : GatekeeperConfig) (now : Int) (s : List Snapshot)
    (p : Nudge → Bool) :
    (analyze cfg now s).countP p ≤ (triggered cfg now s).countP p := by
  have h1 : (analyze cfg now s).countP p ≤ (sort_nudges (triggered cfg now s)).countP p :=
    (List.take_sublist _ _).countP_le p
  have h2 : (sort_nudges (triggered cfg now s)).countP p = (triggered cfg now s).countP p :=
    (List.perm_insertionSort nudgeGE _).countP_eq p
  omega

theorem triggered_type_facts (cfg : GatekeeperConfig) (now : Int) (s : List Snapshot) :
    (∀ n ∈ (check_focus_time cfg now s).toList, n.nudge_type = NudgeType.takeBreak)
    ∧ (∀ n ∈ (if cfg.enable_context_switch_nudges
          then (check_context_switches now s).toList else []),
        n.nudge_type = NudgeType.contextSwitch)
    ∧ (∀ n ∈ (check_activity_level now s).toList, n.nudge_type = NudgeType.highActivity) := by
  refine ⟨fun n hn => ?_, fun n hn => ?_, fun n hn => ?_⟩
  · rw [Option.mem_toList] at hn
    exact (check_focus_time_fields hn).1
  · split at hn
    · rw [Option.mem_toList] at hn
      exact (check_context_switches_fields hn).1
    · exact absurd hn (List.not_mem_nil n)
  · rw [Option.mem_toList] at hn
    exact (check_activity_level_fields hn).1

theorem countP_triggered_type_le_one (cfg : GatekeeperConfig) (now : Int) (s : List Snapshot)
    (t : NudgeType) :
    (triggered cfg now s).countP (fun n => decide (n.nudge_type = t)) ≤ 1 := by
  obtain ⟨hA, hB, hC⟩ := triggered_type_facts cfg now s
  unfold triggered
  rw [List.countP_append, List.countP_append]
  have hBle : (if cfg.enable_context_switch_nudges
      then (check_context_switches now s).toList else []).countP
        (fun n => decide (n.nudge_type = t)) ≤ 1 := by
    split
    · exact countP_option_le_one _ _
    · simp
  rcases t with _ | _ | _ | _ | _
  · have h2 := countP_eq_zero_of_type NudgeType.takeBreak hB (by simp)
    have h3 := countP_eq_zero_of_type NudgeType.takeBreak hC (by simp)
    have h1 := countP_option_le_one (check_focus_time cfg now s) (fun n => decide (n.nudge_type = NudgeType.takeBreak))
    omega
  · have h1 := countP_eq_zero_of_type NudgeType.contextSwitch hA (by simp)
    have h3 := countP_eq_zero_of_type NudgeType.contextSwitch hC (by simp)
    omega
  · have h1 := countP_eq_zero_of_type NudgeType.focusReminder hA (by simp)
    have h2 := countP_eq_zero_of_type NudgeType.focusReminder hB (by simp)
    have h3 := countP_eq_zero_of_type NudgeType.focusReminder hC (by simp)
    omega
  · have h1 := countP_eq_zero_of_type NudgeType.dailySummary hA (by simp)
    have h2 := countP_eq_zero_of_type NudgeType.dailySummary hB (by simp)
    have h3 := countP_eq_zero_of_type NudgeType.dailySummary hC (by simp)
    omega
  · have h1 := countP_eq_zero_of_type NudgeType.highActivity hA (by simp)
    have h2 := countP_eq_zero_of_type NudgeType.highActivity hB (by simp)
    have h3 := countP_option_le_one (check_activity_level now s) (fun n => decide (n.nudge_type = NudgeType.highActivity))
    omega

/-- C10: each call to `analyze` emits at most one nudge of each `NudgeType`,
and never emits a FocusReminder or DailySummary nudge, although both
constructors exist in the `NudgeType` taxonomy. -/
theorem analyze_nudge_types_unique (cfg : GatekeeperConfig) (now : Int) (s : List Snapshot) :
    (∀ t : NudgeType, (analyze cfg now s).countP (fun n => decide (n.nudge_type = t)) ≤ 1)
    ∧ (analyze cfg now s).countP
        (fun n => decide (n.nudge_type = NudgeType.focusReminder)) = 0
    ∧ (analyze cfg now s).countP
        (fun n => decide (n.nudge_type = NudgeType.dailySummary)) = 0 := by
  obtain ⟨hA, hB, hC⟩ := triggered_type_facts cfg now s
  refine ⟨fun t => ?_, ?_, ?_⟩
  · exact le_trans (countP_analyze_le cfg now s _) (countP_triggered_type_le_one cfg now s t)
  · have hz : (triggered cfg now s).countP
        (fun n => decide (n.nudge_type = NudgeType.focusReminder)) = 0 := by
      unfold triggered
      rw [List.countP_append, List.countP_append]
      rw [countP_eq_zero_of_type NudgeType.focusReminder hA (by simp),
        countP_eq_zero_of_type NudgeType.focusReminder hB (by simp),
        countP_eq_zero_of_type NudgeType.focusReminder hC (by simp)]
    have := countP_analyze_le cfg now s
      (fun n => decide (n.nudge_type = NudgeType.focusReminder))
    omega
  · have hz : (triggered cfg now s).countP
        (fun n => decide (n.nudge_type = NudgeType.dailySummary)) = 0 := by
      unfold triggered
      rw [List.countP_append, List.countP_append]
      rw [countP_eq_zero_of_type NudgeType.dailySummary hA (by simp),
        countP_eq_zero_of_type NudgeType.dailySummary hB (by simp),
        countP_eq_zero_of_type NudgeType.dailySummary hC (by simp)]
    have := countP_analyze_le cfg now s
      (fun n => decide (n.nudge_type = NudgeType.dailySummary))
    omega

/-- The three synthetic nudges of the repository's
`test_nudge_priority_ordering` test, inserted in the order Low, High,
Medium. -/
def nudgeLowSynth : Nudge :=
  { message := "Low", nudge_type := NudgeType.highActivity,
    priority := NudgePriority.low, timestamp := 0 }

def nudgeHighSynth : Nudge :=
  { message := "High", nudge_type := NudgeType.takeBreak,
    priority := NudgePriority.high, timestamp := 0 }

def nudgeMedSynth : Nudge :=
  { message := "Medium", nudge_type := NudgeType.contextSwitch,
    priority := NudgePriority.medium, timestamp := 0 }

/-- C5: the sequence returned by `analyze` is the collected nudges (checks
run in the fixed order focus, switch, burst, recorded by `triggered`),
stable-sorted descending by priority and truncated to `max_nudges_per_day`:
its length is at most `max_nudges_per_day`, it is pairwise non-increasing in
priority, for each priority class it is an order-preserving prefix of the
triggered nudges of that class (stability), and on the synthetic nudges
inserted in priority order Low, High, Medium the sort phase returns High,
Medium, Low. -/
theorem analyze_sorted_truncated :
    (∀ (cfg : GatekeeperConfig) (now : Int) (s : List Snapshot),
      (analyze cfg now s).length ≤ cfg.max_nudges_per_day
      ∧ (analyze cfg now s).Pairwise nudgeGE
      ∧ ∀ pr : NudgePriority, ∃ rest,
          (triggered cfg now s).filter (fun n => decide (n.priority = pr))
            = (analyze cfg now s).filter (fun n => decide (n.priority = pr)) ++ rest)
    ∧ sort_nudges [nudgeLowSynth, nudgeHighSynth, nudgeMedSynth]
        = [nudgeHighSynth, nudgeMedSynth, nudgeLowSynth] := by
  refine ⟨fun cfg now s => ⟨?_, analyze_pairwise cfg now s, fun pr => ?_⟩, by decide⟩
  · unfold analyze
    rw [List.length_take]
    exact Nat.min_le_left _ _
  · refine ⟨((sort_nudges (triggered cfg now s)).drop cfg.max_nudges_per_day).filter
      (fun n => decide (n.priority = pr)), ?_⟩
    have h1 : (triggered cfg now s).filter (fun n => decide (n.priority = pr))
        = ((sort_nudges (triggered cfg now s)).take cfg.max_nudges_per_day).filter
            (fun n => decide (n.priority = pr))
          ++ ((sort_nudges (triggered cfg now s)).drop cfg.max_nudges_per_day).filter
            (fun n => decide (n.priority = pr)) := by
      rw [← List.filter_append, List.take_append_drop, filter_sort_nudges]
    exact h1

theorem focus_mem_analyze {cfg : GatekeeperConfig} {now : Int} {s : List Snapshot} {a : Nudge}
    (hf : check_focus_time cfg now s = some a) (hmax : 1 ≤ cfg.max_nudges_per_day) :
    a ∈ analyze cfg now s := by
  have hap : a.priority = NudgePriority.medium := (check_focus_time_fields hf).2
  have hrest : ∀ b ∈ ((if cfg.enable_context_switch_nudges
      then (check_context_switches now s).toList else [])
      ++ (check_activity_level now s).toList), nudgeGE a b := by
    intro b hb
    have hbp : b.priority = NudgePriority.low := by
      rcases List.mem_append.mp hb with hb | hb
      · split at hb
        · exact (check_context_switches_fields (Option.mem_toList.mp hb)).2
        · exact absurd hb (List.not_mem_nil b)
      · exact (check_activity_level_fields (Option.mem_toList.mp hb)).2
    show b.priority.toNat ≤ a.priority.toNat
    rw [hbp, hap]
    decide
  have htr : triggered cfg now s
      = a :: ((if cfg.enable_context_switch_nudges
          then (check_context_switches now s).toList else [])
          ++ (check_activity_level now s).toList) := by
    unfold triggered
    rw [hf]
    rfl
  unfold analyze
  rw [htr, sort_nudges_cons_max a _ hrest]
  obtain ⟨k, hk⟩ : ∃ k, cfg.max_nudges_per_day = k + 1 :=
    ⟨cfg.max_nudges_per_day - 1, by omega⟩
  rw [hk, List.take_succ_cons]
  exact List.mem_cons_self _ _

theorem switch_mem_analyze {cfg : GatekeeperConfig} {now : Int} {s : List Snapshot} {b : Nudge}
    (he : cfg.enable_context_switch_nudges = true)
    (hb : check_context_switches now s = some b) (hmax : 2 ≤ cfg.max_nudges_per_day) :
    b ∈ analyze cfg now s := by
  have hbp : b.priority = NudgePriority.low := (check_context_switches_fields hb).2
  have hC : ∀ c ∈ (check_activity_level now s).toList, nudgeGE b c := by
    intro c hc
    have hcp : c.priority = NudgePriority.low :=
      (check_activity_level_fields (Option.mem_toList.mp hc)).2
    show c.priority.toNat ≤ b.priority.toNat
    rw [hcp, hbp]
  have hsortC : sort_nudges (b :: (check_activity_level now s).toList)
      = b :: sort_nudges (check_activity_level now s).toList :=
    sort_nudges_cons_max b _ hC
  rcases hA : check_focus_time cfg now s with _ | a
  · have htr : triggered cfg now s = b :: (check_activity_level now s).toList := by
      unfold triggered
      rw [hA, he, hb]
      rfl
    unfold analyze
    rw [htr, hsortC]
    obtain ⟨k, hk⟩ : ∃ k, cfg.max_nudges_per_day = k + 1 :=
      ⟨cfg.max_nudges_per_day - 1, by omega⟩
    rw [hk, List.take_succ_cons]
    exact List.mem_cons_self _ _
  · have hap : a.priority = NudgePriority.medium := (check_focus_time_fields hA).2
    have htr : triggered cfg now s = a :: b :: (check_activity_level now s).toList := by
      unfold triggered
      rw [hA, he, hb]
      rfl
    have hab : nudgeGE a b := by
      show b.priority.toNat ≤ a.priority.toNat
      rw [hbp, hap]
      decide
    unfold analyze
    rw [htr, sort_nudges_cons, hsortC, List.orderedInsert_of_le nudgeGE _ hab]
    obtain ⟨k, hk⟩ : ∃ k, cfg.max_nudges_per_day = k + 2 :=
      ⟨cfg.max_nudges_per_day - 2, by omega⟩
    rw [hk, List.take_succ_cons, List.take_succ_cons]
    exact List.mem_cons_of_mem _ (List.mem_cons_self _ _)

/-- The concrete window of the spec's focus-time test: 15 snapshots sharing
`active_directory = "/proj"`, newest first, the oldest (last) timestamped 0. -/
def focusWindow : List Snapshot :=
  (List.range 15).map (fun i =>
    { id := toString i
      timestamp := ((14 - i : Nat) : Int) * 60
      active_file := none
      active_directory := some "/proj"
      git_branch := none
      notes := none })

/-- C1: `analyze` emits a TakeBreak nudge at Medium priority iff the window
is non-empty, its oldest (last, the window is newest-first) and newest
(first) snapshots have equal `active_directory`, and the elapsed time from
the oldest snapshot's timestamp to `now` strictly exceeds
`max_focus_time_minutes` minutes.  The
general statement assumes `max_nudges_per_day ≥ 1`, without which the
truncation phase discards every nudge.  With the default configuration
(`max_focus_time_minutes = 90`), 15 snapshots on one directory and the
oldest 91 minutes ago yield exactly one TakeBreak nudge, and an oldest 10
minutes ago yields none. -/
theorem analyze_takeBreak_iff :
    (∀ (cfg : GatekeeperConfig) (now : Int) (s : List Snapshot),
      1 ≤ cfg.max_nudges_per_day →
      ((∃ n ∈ analyze cfg now s,
          n.nudge_type = NudgeType.takeBreak ∧ n.priority = NudgePriority.medium) ↔
        ∃ o w, s.getLast? = some o ∧ s.head? = some w ∧
          o.active_directory = w.active_directory ∧
          60 * (cfg.max_focus_time_minutes : Int) < now - o.timestamp))
    ∧ (analyze GatekeeperConfig.default 5460 focusWindow).countP
        (fun n => decide (n.nudge_type = NudgeType.takeBreak
          ∧ n.priority = NudgePriority.medium)) = 1
    ∧ (analyze GatekeeperConfig.default 5460 focusWindow).countP
        (fun n => decide (n.nudge_type = NudgeType.takeBreak)) = 1
    ∧ (analyze GatekeeperConfig.default 600 focusWindow).countP
        (fun n => decide (n.nudge_type = NudgeType.takeBreak)) = 0 := by
  refine ⟨fun cfg now s hmax => ?_, by decide, by decide, by decide⟩
  constructor
  · rintro ⟨n, hn, ht, hp⟩
    rcases mem_triggered_iff.mp (mem_triggered_of_mem_analyze hn) with hf | ⟨he, hs⟩ | hc
    · exact (check_focus_time_some_iff cfg now s).mp ⟨n, hf⟩
    · have := (check_context_switches_fields hs).1
      rw [this] at ht
      exact absurd ht (by simp)
    · have := (check_activity_level_fields hc).1
      rw [this] at ht
      exact absurd ht (by simp)
  · intro hRHS
    obtain ⟨n, hf⟩ := (check_focus_time_some_iff cfg now s).mpr hRHS
    exact ⟨n, focus_mem_analyze hf hmax,
      (check_focus_time_fields hf).1, (check_focus_time_fields hf).2⟩

theorem analyze_takeBreak_iff_witness :
    1 ≤ GatekeeperConfig.default.max_nudges_per_day
    ∧ ((∃ n ∈ analyze GatekeeperConfig.default 5460 focusWindow,
          n.nudge_type = NudgeType.takeBreak ∧ n.priority = NudgePriority.medium) ↔
        ∃ o w, focusWindow.getLast? = some o ∧ focusWindow.head? = some w ∧
          o.active_directory = w.active_directory ∧
          60 * (GatekeeperConfig.default.max_focus_time_minutes : Int) < 5460 - o.timestamp) :=
  ⟨by decide, analyze_takeBreak_iff.1 GatekeeperConfig.default 5460 focusWindow (by decide)⟩

/-- The concrete window of the spec's context-switch test: 12 snapshots,
newest first, whose 10 most recent span 6 distinct directories. -/
def switchWindow : List Snapshot :=
  (List.range 12).map (fun i =>
    { id := toString i
      timestamp := ((11 - i : Nat) : Int) * 60
      active_file := none
      active_directory := some ("/p" ++ toString (i % 6))
      git_branch := none
      notes := none })

/-- C4: `analyze` emits a ContextSwitch nudge iff context-switch nudges are
enabled and the 10 most recent snapshots reference 5 or more distinct
(present) `active_directory` values; the general iff assumes
`max_nudges_per_day ≥ 2` so that the truncation phase cannot discard the
Low-priority ContextSwitch nudge behind a Medium TakeBreak one.  With the
feature disabled no ContextSwitch nudge is ever emitted, for every window
and configuration.  On a window whose 10 most recent snapshots span 6
directories, the default (enabled) configuration yields exactly one
ContextSwitch nudge at Low priority, and the disabled one yields zero. -/
theorem analyze_contextSwitch_iff :
    (∀ (cfg : GatekeeperConfig) (now : Int) (s : List Snapshot),
      2 ≤ cfg.max_nudges_per_day →
      ((∃ n ∈ analyze cfg now s, n.nudge_type = NudgeType.contextSwitch) ↔
        (cfg.enable_context_switch_nudges = true
          ∧ 5 ≤ ((s.take 10).filterMap (fun x => x.active_directory)).dedup.length)))
    ∧ (∀ (cfg : GatekeeperConfig) (now : Int) (s : List Snapshot),
        cfg.enable_context_switch_nudges = false →
        (analyze cfg now s).countP
          (fun n => decide (n.nudge_type = NudgeType.contextSwitch)) = 0)
    ∧ (analyze GatekeeperConfig.default 800 switchWindow).countP
        (fun n => decide (n.nudge_type = NudgeType.contextSwitch
          ∧ n.priority = NudgePriority.low)) = 1
    ∧ (analyze (GatekeeperConfig.mk 2 false 15 90) 800 switchWindow).countP
        (fun n => decide (n.nudge_type = NudgeType.contextSwitch)) = 0 := by
  refine ⟨fun cfg now s hmax => ?_, fun cfg now s hef => ?_, by decide, by decide⟩
  · constructor
    · rintro ⟨n, hn, ht⟩
      rcases mem_triggered_iff.mp (mem_triggered_of_mem_analyze hn) with hf | ⟨he, hs⟩ | hc
      · have := (check_focus_time_fields hf).1
        rw [this] at ht
        exact absurd ht (by simp)
      · exact ⟨he, (check_context_switches_some_iff now s).mp ⟨n, hs⟩⟩
      · have := (check_activity_level_fields hc).1
        rw [this] at ht
        exact absurd ht (by simp)
    · rintro ⟨he, h5⟩
      obtain ⟨b, hb⟩ := (check_context_switches_some_iff now s).mpr h5
      exact ⟨b, switch_mem_analyze he hb hmax, (check_context_switches_fields hb).1⟩
  · have h1 := countP_analyze_le cfg now s
      (fun n => decide (n.nudge_type = NudgeType.contextSwitch))
    have hz : (triggered cfg now s).countP
        (fun n => decide (n.nudge_type = NudgeType.contextSwitch)) = 0 := by
      unfold triggered
      rw [hef]
      simp only [Bool.false_eq_true, if_false, List.countP_append, List.countP_nil]
      rw [countP_eq_zero_of_type NudgeType.contextSwitch
          (fun n hn => (check_focus_time_fields (Option.mem_toList.mp hn)).1) (by simp),
        countP_eq_zero_of_type NudgeType.contextSwitch
          (fun n hn => (check_activity_level_fields (Option.mem_toList.mp hn)).1) (by simp)]
    omega

theorem analyze_contextSwitch_iff_witness :
    2 ≤ GatekeeperConfig.default.max_nudges_per_day
    ∧ ((∃ n ∈ analyze GatekeeperConfig.default 800 switchWindow,
          n.nudge_type = NudgeType.contextSwitch) ↔
        (GatekeeperConfig.default.enable_context_switch_nudges = true
          ∧ 5 ≤ ((switchWindow.take 10).filterMap
              (fun x => x.active_directory)).dedup.length)) :=
  ⟨by decide,
   analyze_contextSwitch_iff.1 GatekeeperConfig.default 800 switchWindow (by decide)⟩

theorem cleanup_remaining_perm (db : Database) (maxS : Nat)
    (hnd : (db.snapshots.map (fun s => s.id)).Nodup) :
    (db.cleanup_old_snapshots maxS).1.snapshots.Perm
      ((List.insertionSort snapGE db.snapshots).take maxS) := by
  have hperm : (List.insertionSort snapGE db.snapshots).Perm db.snapshots :=
    List.perm_insertionSort snapGE db.snapshots
  set sorted := List.insertionSort snapGE db.snapshots with hsorted
  set kept := (sorted.take maxS).map (fun s => s.id) with hkept
  have hnds : (sorted.map (fun s => s.id)).Nodup :=
    ((hperm.map (fun s => s.id)).nodup_iff).mpr hnd
  have htd : sorted.take maxS ++ sorted.drop maxS = sorted := List.take_append_drop maxS sorted
  have hdisj : ∀ a, a ∈ (sorted.take maxS).map (fun s => s.id) →
      a ∈ (sorted.drop maxS).map (fun s => s.id) → False := by
    intro a h1 h2
    have h3 : ((sorted.take maxS).map (fun s => s.id)
        ++ (sorted.drop maxS).map (fun s => s.id)).Nodup := by
      rw [← List.map_append, htd]
      exact hnds
    exact (List.disjoint_of_nodup_append h3) h1 h2
  have htake : (sorted.take maxS).filter (fun r => decide (r.id ∈ kept))
      = sorted.take maxS := by
    refine List.filter_eq_self.mpr (fun r hr => ?_)
    exact decide_eq_true (List.mem_map_of_mem (fun s => s.id) hr)
  have hdrop : (sorted.drop maxS).filter (fun r => decide (r.id ∈ kept)) = [] := by
    refine List.filter_eq_nil_iff.mpr (fun r hr hc => ?_)
    have h1 : r.id ∈ kept := of_decide_eq_true hc
    exact hdisj r.id h1 (List.mem_map_of_mem (fun s => s.id) hr)
  have hfil : sorted.filter (fun r => decide (r.id ∈ kept)) = sorted.take maxS := by
    conv_lhs => rw [← htd]
    rw [List.filter_append, htake, hdrop, List.append_nil]
  have hp : (db.snapshots.filter (fun r => decide (r.id ∈ kept))).Perm
      (sorted.take maxS) := by
    rw [← hfil]
    exact (hperm.symm).filter _
  exact hp

theorem cleanup_counts (db : Database) (maxS : Nat)
    (hnd : (db.snapshots.map (fun s => s.id)).Nodup) :
    (db.cleanup_old_snapshots maxS).1.snapshots.length = min db.snapshots.length maxS
    ∧ (db.cleanup_old_snapshots maxS).2 = db.snapshots.length - maxS := by
  have hperm : (List.insertionSort snapGE db.snapshots).Perm db.snapshots :=
    List.perm_insertionSort snapGE db.snapshots
  have hlen1 : (db.cleanup_old_snapshots maxS).1.snapshots.length
      = min db.snapshots.length maxS := by
    rw [(cleanup_remaining_perm db maxS hnd).length_eq, List.length_take,
      hperm.length_eq, Nat.min_comm]
  refine ⟨hlen1, ?_⟩
  have hsplitAll : ∀ p : Snapshot → Bool,
      db.snapshots.countP p + db.snapshots.countP (fun a => !(p a))
        = db.snapshots.length := by
    intro p
    have := List.length_eq_countP_add_countP (l := db.snapshots) p
    simpa using this.symm
  have hsplit := hsplitAll
    (fun r => decide (r.id ∈ ((List.insertionSort snapGE db.snapshots).take maxS).map
      (fun s => s.id)))
  have hcp : db.snapshots.countP
      (fun r => decide (r.id ∈ ((List.insertionSort snapGE db.snapshots).take maxS).map
        (fun s => s.id))) = min db.snapshots.length maxS := by
    rw [List.countP_eq_length_filter]
    have h1 := (cleanup_remaining_perm db maxS hnd).length_eq
    have h2 : (db.cleanup_old_snapshots maxS).1.snapshots
        = db.snapshots.filter
          (fun r => decide (r.id ∈ ((List.insertionSort snapGE db.snapshots).take maxS).map
            (fun s => s.id))) := rfl
    rw [h2] at h1
    rw [h1, List.length_take, hperm.length_eq, Nat.min_comm]
  show db.snapshots.countP
      (fun r => !(decide (r.id ∈ ((List.insertionSort snapGE db.snapshots).take maxS).map
        (fun s => s.id)))) = db.snapshots.length - maxS
  omega

theorem cleanup_noop (db : Database) (maxS : Nat) (hlen : db.snapshots.length ≤ maxS) :
    db.cleanup_old_snapshots maxS = (db, 0) := by
  have hperm : (List.insertionSort snapGE db.snapshots).Perm db.snapshots :=
    List.perm_insertionSort snapGE db.snapshots
  have hslen : (List.insertionSort snapGE db.snapshots).length ≤ maxS := by
    rw [hperm.length_eq]
    exact hlen
  have htake : (List.insertionSort snapGE db.snapshots).take maxS
      = List.insertionSort snapGE db.snapshots := List.take_of_length_le hslen
  have hall : ∀ r ∈ db.snapshots,
      decide (r.id ∈ ((List.insertionSort snapGE db.snapshots).take maxS).map
        (fun s => s.id)) = true := by
    intro r hr
    refine decide_eq_true ?_
    rw [htake]
    exact List.mem_map_of_mem (fun s => s.id) (hperm.mem_iff.mpr hr)
  have hfil : db.snapshots.filter
      (fun r => decide (r.id ∈ ((List.insertionSort snapGE db.snapshots).take maxS).map
        (fun s => s.id))) = db.snapshots := List.filter_eq_self.mpr hall
  have hcnt : db.snapshots.countP
      (fun r => !(decide (r.id ∈ ((List.insertionSort snapGE db.snapshots).take maxS).map
        (fun s => s.id)))) = 0 := by
    refine List.countP_eq_zero.mpr (fun r hr => ?_)
    rw [hall r hr]
    simp
  show ({ db with snapshots := db.snapshots.filter _ }, _) = (db, 0)
  rw [hfil, hcnt]

/-- C2: for a store whose snapshot ids are distinct (the `id TEXT PRIMARY
KEY` invariant), `cleanup_old_snapshots maxS` keeps exactly
`min total_before maxS` rows — a permutation of the `maxS` most recent by
timestamp — and reports `total_before - maxS` (truncated at 0) rows deleted;
a second call with no intervening insert deletes 0 rows and leaves the store
unchanged. -/
theorem cleanup_old_snapshots_spec :
    ∀ (db : Database) (maxS : Nat),
      (db.snapshots.map (fun s => s.id)).Nodup →
      (db.cleanup_old_snapshots maxS).1.snapshots.length = min db.snapshots.length maxS
      ∧ (db.cleanup_old_snapshots maxS).2 = db.snapshots.length - maxS
      ∧ (db.cleanup_old_snapshots maxS).1.snapshots.Perm
          ((List.insertionSort snapGE db.snapshots).take maxS)
      ∧ ((db.cleanup_old_snapshots maxS).1.cleanup_old_snapshots maxS)
          = ((db.cleanup_old_snapshots maxS).1, 0) := by
  intro db maxS hnd
  obtain ⟨h1, h2⟩ := cleanup_counts db maxS hnd
  refine ⟨h1, h2, cleanup_remaining_perm db maxS hnd, ?_⟩
  exact cleanup_noop _ maxS (by rw [h1]; exact Nat.min_le_right _ _)

theorem cleanup_old_snapshots_spec_witness :
    (((Database.mk
        [Snapshot.mk "a" 3 none none none none,
         Snapshot.mk "b" 1 none none none none,
         Snapshot.mk "c" 2 none none none none] [] false).snapshots.map
          (fun s => s.id)).Nodup)
    ∧ ((Database.mk
        [Snapshot.mk "a" 3 none none none none,
         Snapshot.mk "b" 1 none none none none,
         Snapshot.mk "c" 2 none none none none] [] false).cleanup_old_snapshots 2).2 = 1 := by
  constructor
  · decide
  · have h := (cleanup_old_snapshots_spec
      (Database.mk
        [Snapshot.mk "a" 3 none none none none,
         Snapshot.mk "b" 1 none none none none,
         Snapshot.mk "c" 2 none none none none] [] false) 2 (by decide)).2.1
    rw [h]
    rfl

/-- Lookup in the association-list model of the dedup `HashMap`: the value
stored under key `p`, if any. -/
def findVal (m : List (String × WatchEvent)) (p : String) : Option WatchEvent :=
  (m.find? (fun kv => decide (kv.1 = p))).map Prod.snd

theorem findVal_overwrite (e : WatchEvent) :
    ∀ m : List (String × WatchEvent),
      m.any (fun kv => decide (kv.1 = e.path)) = true →
      findVal (m.map (fun kv => if kv.1 = e.path then (e.path, e) else kv)) e.path
        = some e := by
  intro m
  induction m with
  | nil => intro h; simp at h
  | cons a m' ih =>
    intro h
    by_cases ha : a.1 = e.path
    · simp only [List.map_cons, if_pos ha]
      unfold findVal
      rw [List.find?_cons_of_pos _ (by simp)]
      rfl
    · simp only [List.map_cons, if_neg ha]
      unfold findVal
      rw [List.find?_cons_of_neg _ (by simp [ha])]
      have h' : m'.any (fun kv => decide (kv.1 = e.path)) = true := by
        simp only [List.any_cons] at h
        rcases Bool.or_eq_true_iff.mp h with h1 | h1
        · exact absurd (of_decide_eq_true h1) ha
        · exact h1
      exact ih h'

theorem findVal_map_other (e : WatchEvent) (p : String) (hp : e.path ≠ p) :
    ∀ m : List (String × WatchEvent),
      findVal (m.map (fun kv => if kv.1 = e.path then (e.path, e) else kv)) p
        = findVal m p := by
  intro m
  induction m with
  | nil => rfl
  | cons a m' ih =>
    by_cases ha : a.1 = e.path
    · simp only [List.map_cons, if_pos ha]
      unfold findVal
      rw [List.find?_cons_of_neg _ (by simp [hp]),
        List.find?_cons_of_neg _ (by simp [ha ▸ hp])]
      exact ih
    · simp only [List.map_cons, if_neg ha]
      by_cases hap : a.1 = p
      · unfold findVal
        rw [List.find?_cons_of_pos _ (by simp [hap]),
          List.find?_cons_of_pos _ (by simp [hap])]
      · unfold findVal
        rw [List.find?_cons_of_neg _ (by simp [hap]),
          List.find?_cons_of_neg _ (by simp [hap])]
        exact ih

theorem findVal_append_new (e : WatchEvent) (p : String) :
    ∀ m : List (String × WatchEvent),
      m.any (fun kv => decide (kv.1 = e.path)) = false →
      findVal (m ++ [(e.path, e)]) p
        = if e.path = p then some e else findVal m p := by
  intro m
  induction m with
  | nil =>
    intro _
    by_cases hp : e.path = p
    · simp only [List.nil_append, if_pos hp]
      unfold findVal
      rw [List.find?_cons_of_pos _ (by simp [hp])]
      rfl
    · simp only [List.nil_append, if_neg hp]
      unfold findVal
      rw [List.find?_cons_of_neg _ (by simp [hp])]
  | cons a m' ih =>
    intro h
    have hane : a.1 ≠ e.path := by
      intro hc
      have : (decide (a.1 = e.path)) = true := decide_eq_true hc
      simp [List.any_cons, this] at h
    have h' : m'.any (fun kv => decide (kv.1 = e.path)) = false := by
      simp only [List.any_cons, Bool.or_eq_false_iff] at h
      exact h.2
    by_cases hap : a.1 = p
    · have hpe : e.path ≠ p := fun hc => hane (hap.trans hc.symm)
      simp only [List.cons_append, if_neg hpe]
      unfold findVal
      rw [List.find?_cons_of_pos _ (by simp [hap]),
        List.find?_cons_of_pos _ (by simp [hap])]
    · simp only [List.cons_append]
      unfold findVal
      rw [List.find?_cons_of_neg _ (by simp [hap])]
      have := ih h'
      unfold findVal at this
      rw [this]
      by_cases hpe : e.path = p
      · simp [hpe]
      · simp only [if_neg hpe]
        rw [List.find?_cons_of_neg _ (by simp [hap])]

theorem findVal_insertLatest (m : List (String × WatchEvent)) (e : WatchEvent) (p : String) :
    findVal (insertLatest m e) p = if e.path = p then some e else findVal m p := by
  unfold insertLatest
  rcases hany : m.any (fun kv => decide (kv.1 = e.path)) with _ | _
  · simp only [Bool.false_eq_true, if_false]
    exact findVal_append_new e p m hany
  · simp only [if_true]
    by_cases hp : e.path = p
    · rw [if_pos hp, ← hp]
      exact findVal_overwrite e m hany
    · rw [if_neg hp]
      exact findVal_map_other e p hp m

theorem keys_insertLatest (m : List (String × WatchEvent)) (e : WatchEvent) :
    (insertLatest m e).map Prod.fst = m.map Prod.fst
    ∨ (insertLatest m e).map Prod.fst = m.map Prod.fst ++ [e.path]
        ∧ e.path ∉ m.map Prod.fst := by
  unfold insertLatest
  rcases hany : m.any (fun kv => decide (kv.1 = e.path)) with _ | _
  · simp only [Bool.false_eq_true, if_false]
    refine Or.inr ⟨List.map_append _ _ _, fun hc => ?_⟩
    obtain ⟨kv, hkv, hkv2⟩ := List.mem_map.mp hc
    have : m.any (fun kv => decide (kv.1 = e.path)) = true :=
      List.any_eq_true.mpr ⟨kv, hkv, decide_eq_true hkv2⟩
    rw [hany] at this
    exact Bool.noConfusion this
  · simp only [if_true]
    refine Or.inl ?_
    rw [List.map_map]
    refine List.map_congr_left (fun kv _ => ?_)
    by_cases hk : kv.1 = e.path
    · simp [hk]
    · simp [hk]

theorem insertLatest_nodup {m : List (String × WatchEvent)}
    (h : (m.map Prod.fst).Nodup) (e : WatchEvent) :
    ((insertLatest m e).map Prod.fst).Nodup := by
  rcases keys_insertLatest m e with hk | ⟨hk, hnm⟩
  · rw [hk]; exact h
  · rw [hk]
    rw [List.nodup_append]
    exact ⟨h, List.nodup_singleton _, by simpa using hnm⟩

theorem insertLatest_wf {m : List (String × WatchEvent)}
    (h : ∀ kv ∈ m, (kv : String × WatchEvent).1 = kv.2.path) (e : WatchEvent) :
    ∀ kv ∈ insertLatest m e, (kv : String × WatchEvent).1 = kv.2.path := by
  intro kv hkv
  unfold insertLatest at hkv
  rcases hany : m.any (fun x => decide (x.1 = e.path)) with _ | _ <;>
    rw [hany] at hkv
  · simp only [Bool.false_eq_true, if_false] at hkv
    rcases List.mem_append.mp hkv with hm | hm
    · exact h kv hm
    · rcases List.mem_singleton.mp hm with rfl
      rfl
  · simp only [if_true] at hkv
    obtain ⟨kv', hkv', hmap⟩ := List.mem_map.mp hkv
    by_cases hk : kv'.1 = e.path
    · rw [if_pos hk] at hmap
      rw [← hmap]
    · rw [if_neg hk] at hmap
      rw [← hmap]
      exact h kv' hkv'

theorem foldl_insertLatest_nodup (evs : List WatchEvent) :
    ∀ m : List (String × WatchEvent), (m.map Prod.fst).Nodup →
      ((evs.foldl insertLatest m).map Prod.fst).Nodup := by
  induction evs with
  | nil => intro m h; exact h
  | cons e evs ih =>
    intro m h
    exact ih (insertLatest m e) (insertLatest_nodup h e)

theorem foldl_insertLatest_wf (evs : List WatchEvent) :
    ∀ m : List (String × WatchEvent),
      (∀ kv ∈ m, (kv : String × WatchEvent).1 = kv.2.path) →
      ∀ kv ∈ evs.foldl insertLatest m, (kv : String × WatchEvent).1 = kv.2.path := by
  induction evs with
  | nil => intro m h; exact h
  | cons e evs ih =>
    intro m h
    exact ih (insertLatest m e) (insertLatest_wf h e)

theorem findVal_foldl (evs : List WatchEvent) :
    ∀ (m : List (String × WatchEvent)) (p : String),
      findVal (evs.foldl insertLatest m) p
        = match lastFor evs p with
          | some x => some x
          | none => findVal m p := by
  induction evs with
  | nil => intro m p; rfl
  | cons e evs ih =>
    intro m p
    show findVal (evs.foldl insertLatest (insertLatest m e)) p = _
    rw [ih]
    cases hl : lastFor evs p with
    | some x => simp [lastFor, hl]
    | none =>
      rw [findVal_insertLatest]
      by_cases hp : e.path = p <;> simp [lastFor, hl, hp]

theorem findVal_of_mem :
    ∀ (m : List (String × WatchEvent)), (m.map Prod.fst).Nodup →
      ∀ kv ∈ m, findVal m kv.1 = some kv.2 := by
  intro m
  induction m with
  | nil => intro _ kv hkv; cases hkv
  | cons a m' ih =>
    intro hnd kv hkv
    have hnd' : (m'.map Prod.fst).Nodup := (List.nodup_cons.mp hnd).2
    have hna : a.1 ∉ m'.map Prod.fst := (List.nodup_cons.mp hnd).1
    rcases List.mem_cons.mp hkv with rfl | hm
    · unfold findVal
      rw [List.find?_cons_of_pos _ (by simp)]
      rfl
    · by_cases hak : a.1 = kv.1
      · exfalso
        apply hna
        rw [hak]
        exact List.mem_map_of_mem Prod.fst hm
      · unfold findVal
        rw [List.find?_cons_of_neg _ (by simp [hak])]
        exact ih hnd' kv hm

theorem lastFor_mem : ∀ (evs : List WatchEvent) (p : String) (x : WatchEvent),
    lastFor evs p = some x → x ∈ evs ∧ x.path = p := by
  intro evs
  induction evs with
  | nil => intro p x h; exact Option.noConfusion h
  | cons e evs ih =>
    intro p x h
    unfold lastFor at h
    cases hl : lastFor evs p with
    | some y =>
      rw [hl] at h
      injection h with h
      subst h
      obtain ⟨h1, h2⟩ := ih p y hl
      exact ⟨List.mem_cons_of_mem e h1, h2⟩
    | none =>
      rw [hl] at h
      by_cases hp : e.path = p
      · rw [if_pos hp] at h
        injection h with h
        subst h
        exact ⟨List.mem_cons_self e evs, hp⟩
      · rw [if_neg hp] at h
        exact Option.noConfusion h

theorem lastFor_isSome_of_mem : ∀ (evs : List WatchEvent) (e : WatchEvent), e ∈ evs →
    ∃ x, lastFor evs e.path = some x := by
  intro evs
  induction evs with
  | nil => intro e h; cases h
  | cons a evs ih =>
    intro e h
    rcases List.mem_cons.mp h with rfl | hm
    · cases hl : lastFor evs e.path with
      | some x => exact ⟨x, by simp [lastFor, hl]⟩
      | none => exact ⟨e, by simp [lastFor, hl]⟩
    · obtain ⟨x, hx⟩ := ih e hm
      exact ⟨x, by simp [lastFor, hx]⟩

/-- C3: `deduplicate_events` keeps at most one event per distinct path
(last-write-wins): each path occurs at most once in the output, every output
event is the last input event for its path in arrival order (in particular
it is among the input events), and every path present in the input is still
present in the output.  Output ordering is unspecified by the contract; the
function is pure, so it retains no state between batches. -/
theorem deduplicate_events_spec :
    ∀ evs : List WatchEvent,
      (∀ p : String, (deduplicate_events evs).countP (fun x => decide (x.path = p)) ≤ 1)
      ∧ (∀ x ∈ deduplicate_events evs, lastFor evs x.path = some x ∧ x ∈ evs)
      ∧ (∀ e ∈ evs, ∃ x ∈ deduplicate_events evs, x.path = e.path) := by
  intro evs
  set m := evs.foldl insertLatest [] with hm
  have hnd : (m.map Prod.fst).Nodup := foldl_insertLatest_nodup evs [] (by simp)
  have hwf : ∀ kv ∈ m, (kv : String × WatchEvent).1 = kv.2.path :=
    foldl_insertLatest_wf evs [] (by simp)
  have hfold : ∀ p, findVal m p = lastFor evs p := by
    intro p
    rw [hm, findVal_foldl]
    cases lastFor evs p <;> rfl
  have hdd : deduplicate_events evs = m.map Prod.snd := rfl
  refine ⟨?_, ?_, ?_⟩
  · intro p
    rw [hdd]
    have h1 : (m.map Prod.snd).countP (fun x => decide (x.path = p))
        = m.countP ((fun x => decide (x.path = p)) ∘ Prod.snd) := List.countP_map _ _ _
    have h2 : m.countP ((fun x => decide (x.path = p)) ∘ Prod.snd)
        = m.countP (fun kv => decide (kv.1 = p)) := by
      refine List.countP_congr (fun kv hkv => ?_)
      simp only [Function.comp]
      rw [hwf kv hkv]
    have h3 : m.countP (fun kv => decide (kv.1 = p))
        = (m.map Prod.fst).countP (fun k => decide (k = p)) := by
      rw [List.countP_map]
      rfl
    have h4 : (m.map Prod.fst).countP (fun k => decide (k = p)) = (m.map Prod.fst).count p := by
      rw [List.count_eq_countP]
      refine List.countP_congr (fun k _ => ?_)
      simp
    rw [h1, h2, h3, h4]
    exact List.nodup_iff_count_le_one.mp hnd p
  · intro x hx
    rw [hdd] at hx
    obtain ⟨kv, hkv, hsnd⟩ := List.mem_map.mp hx
    subst hsnd
    have hp : kv.1 = kv.2.path := hwf kv hkv
    have h1 : findVal m kv.1 = some kv.2 := findVal_of_mem m hnd kv hkv
    have h2 : lastFor evs kv.1 = some kv.2 := by
      rw [← hfold kv.1]
      exact h1
    rw [← hp]
    exact ⟨h2, (lastFor_mem evs kv.1 kv.2 h2).1⟩
  · intro e he
    obtain ⟨x, hx⟩ := lastFor_isSome_of_mem evs e he
    have h2 : findVal m e.path = some x := by
      rw [hfold e.path]
      exact hx
    unfold findVal at h2
    cases hfq : m.find? (fun kv => decide (kv.1 = e.path)) with
    | none =>
      rw [hfq] at h2
      exact Option.noConfusion h2
    | some kv =>
      rw [hfq] at h2
      injection h2 with h2
      have hkv : kv ∈ m := List.mem_of_find?_eq_some hfq
      refine ⟨x, ?_, (lastFor_mem evs e.path x hx).2⟩
      rw [hdd, ← h2]
      exact List.mem_map_of_mem Prod.snd hkv

theorem deduplicate_events_spec_witness :
    (deduplicate_events
        [WatchEvent.mk "/src/a.rs" FileEventType.modified,
         WatchEvent.mk "/src/b.rs" FileEventType.created,
         WatchEvent.mk "/src/a.rs" FileEventType.deleted]).countP
      (fun x => decide (x.path = "/src/a.rs")) ≤ 1
    ∧ (∃ x ∈ deduplicate_events
        [WatchEvent.mk "/src/a.rs" FileEventType.modified,
         WatchEvent.mk "/src/b.rs" FileEventType.created,
         WatchEvent.mk "/src/a.rs" FileEventType.deleted],
        x.path = "/src/a.rs") := by
  constructor
  · exact (deduplicate_events_spec
      [WatchEvent.mk "/src/a.rs" FileEventType.modified,
       WatchEvent.mk "/src/b.rs" FileEventType.created,
       WatchEvent.mk "/src/a.rs" FileEventType.deleted]).1 "/src/a.rs"
  · exact (deduplicate_events_spec
      [WatchEvent.mk "/src/a.rs" FileEventType.modified,
       WatchEvent.mk "/src/b.rs" FileEventType.created,
       WatchEvent.mk "/src/a.rs" FileEventType.deleted]).2.2
      (WatchEvent.mk "/src/a.rs" FileEventType.modified) (by decide)

/-- C7: `should_ignore` is true iff the path matches at least one pattern
that compiled successfully; patterns that fail to compile are silently
dropped and never cause an error or a match.  The first two parts are
parametric in the regex engine, so they hold whatever matcher the `regex`
crate implements; the concrete parts instantiate the literal-pattern model
of the crate on the spec's `\.git` example. -/
theorem should_ignore_spec :
    (∀ {γ : Type} (compile : String → Option γ) (isMatch : γ → String → Bool)
        (patterns : List String) (path : String),
      should_ignore isMatch (compilePatterns compile patterns) path = true ↔
        ∃ p ∈ patterns, ∃ r, compile p = some r ∧ isMatch r path = true)
    ∧ (∀ {γ : Type} (compile : String → Option γ) (isMatch : γ → String → Bool)
        (patterns : List String) (bad : String) (path : String),
        compile bad = none →
        should_ignore isMatch (compilePatterns compile (patterns ++ [bad])) path
          = should_ignore isMatch (compilePatterns compile patterns) path)
    ∧ should_ignore litIsMatch (compilePatterns litCompile ["\\.git"]) "/repo/.git/objects/x"
        = true
    ∧ should_ignore litIsMatch (compilePatterns litCompile ["\\.git"]) "/repo/src/main.rs"
        = false := by
  refine ⟨?_, ?_, by decide, by decide⟩
  · intro γ compile isMatch patterns path
    unfold should_ignore compilePatterns
    rw [List.any_eq_true]
    constructor
    · rintro ⟨r, hr, hm⟩
      obtain ⟨p, hp, hc⟩ := List.mem_filterMap.mp hr
      exact ⟨p, hp, r, hc, hm⟩
    · rintro ⟨p, hp, r, hc, hm⟩
      exact ⟨r, List.mem_filterMap.mpr ⟨p, hp, hc⟩, hm⟩
  · intro γ compile isMatch patterns bad path hbad
    unfold compilePatterns
    rw [List.filterMap_append]
    simp [List.filterMap_cons, hbad]

theorem should_ignore_spec_witness :
    litCompile "(" = none
    ∧ should_ignore litIsMatch
        (compilePatterns litCompile (["\\.git"] ++ ["("])) "/repo/src/main.rs"
      = should_ignore litIsMatch (compilePatterns litCompile ["\\.git"]) "/repo/src/main.rs" :=
  ⟨by decide,
   should_ignore_spec.2.1 litCompile litIsMatch ["\\.git"] "(" "/repo/src/main.rs" (by decide)⟩

/-- C8 (amended): `process_event` maps Create/Modify/Remove notification
kinds to Created/Modified/Deleted WatchEvents and drops the remaining
top-level kinds (Access, Any, Other); it never emits a Renamed WatchEvent.
Rename notifications, however, are NOT dropped: the `notify` crate reports
them as `Modify(Name(_))`, which the wildcard `EventKind::Modify(_)` arm
maps to Modified events, one per non-ignored path. -/
theorem process_event_kinds :
    (∀ (f : String → Bool) (ev : NotifyEvent),
      (process_event f ev).countP
        (fun w => decide (w.event_type = FileEventType.renamed)) = 0)
    ∧ (∀ (f : String → Bool) (ps : List String),
        process_event f (NotifyEvent.mk EventKind.access ps) = []
        ∧ process_event f (NotifyEvent.mk EventKind.any ps) = []
        ∧ process_event f (NotifyEvent.mk EventKind.other ps) = [])
    ∧ (∀ (f : String → Bool) (mode : RenameMode) (ps : List String),
        process_event f (NotifyEvent.mk (EventKind.modify (ModifyKind.name mode)) ps)
          = (ps.filter (fun p => !(f p))).map
              (fun p => WatchEvent.mk p FileEventType.modified)) := by
  refine ⟨?_, fun f ps => ⟨rfl, rfl, rfl⟩, fun f mode ps => rfl⟩
  intro f ev
  rcases ev with ⟨kind, paths⟩
  cases kind with
  | any => rfl
  | access => rfl
  | other => rfl
  | create =>
    refine List.countP_eq_zero.mpr (fun w hw => ?_)
    obtain ⟨p, hp, rfl⟩ := List.mem_map.mp hw
    simp
  | modify k =>
    refine List.countP_eq_zero.mpr (fun w hw => ?_)
    obtain ⟨p, hp, rfl⟩ := List.mem_map.mp hw
    simp
  | remove =>
    refine List.countP_eq_zero.mpr (fun w hw => ?_)
    obtain ⟨p, hp, rfl⟩ := List.mem_map.mp hw
    simp

/-- C8 counterexample: a rename notification — kind `Modify(Name(Both))` in
the `notify` taxonomy — is not dropped: it produces a Modified WatchEvent,
so "notifications of any other underlying kind (including renames) produce
no WatchEvent" fails at this input. -/
theorem process_event_rename_cex :
    process_event (fun _ => false)
        (NotifyEvent.mk (EventKind.modify (ModifyKind.name RenameMode.both)) ["/a.txt"])
      = [WatchEvent.mk "/a.txt" FileEventType.modified]
    ∧ process_event (fun _ => false)
        (NotifyEvent.mk (EventKind.modify (ModifyKind.name RenameMode.both)) ["/a.txt"])
      ≠ [] := by
  exact ⟨by decide, by decide⟩

/-- C6 counterexample: one stored event timestamped 86400 seconds — exactly
`end_of_day` of the UTC day containing date 0.  The claim says an event at
exactly `until` is not counted, i.e. `total_events = 0` for day 0; the code
counts it (`timestamp <= ?2` is inclusive), and indeed also counts it again
for the following day. -/
theorem daily_summary_boundary_cex :
    (daily_summary
        (Database.mk [] [FileEvent.mk "e1" 86400 "/src/main.rs" FileEventType.created] false)
        0).total_events = 1
    ∧ ¬ ((daily_summary
        (Database.mk [] [FileEvent.mk "e1" 86400 "/src/main.rs" FileEventType.created] false)
        0).total_events = 0)
    ∧ (daily_summary
        (Database.mk [] [FileEvent.mk "e1" 86400 "/src/main.rs" FileEventType.created] false)
        86400).total_events = 1 := by
  exact ⟨by decide, by decide, by decide⟩

/-- C6 (amended): the event-count queries behind `daily_summary` cover the
CLOSED interval `[since, until]` — the SQL filter is `timestamp >= ?1 AND
timestamp <= ?2` — so an event with timestamp exactly equal to `until` IS
counted by the aggregate (by `total_events`, and by `files_modified` or
`files_created` when its type matches). -/
theorem get_activity_summary_boundary :
    ∀ (events : List FileEvent) (since untilT : Int) (e : FileEvent),
      e ∈ events → since ≤ e.timestamp → e.timestamp = untilT →
      1 ≤ (get_activity_summary events since untilT).total_events
      ∧ (e.event_type = FileEventType.modified →
          1 ≤ (get_activity_summary events since untilT).files_modified)
      ∧ (e.event_type = FileEventType.created →
          1 ≤ (get_activity_summary events since untilT).files_created) := by
  intro events since untilT e he h1 h2
  have hin : inRange since untilT e = true := by
    unfold inRange
    simp [h1, h2.le]
  refine ⟨?_, ?_, ?_⟩
  · exact List.countP_pos_iff.mpr ⟨e, he, hin⟩
  · intro hm
    exact List.countP_pos_iff.mpr ⟨e, he, by simp [hin, hm]⟩
  · intro hc
    exact List.countP_pos_iff.mpr ⟨e, he, by simp [hin, hc]⟩

theorem get_activity_summary_boundary_witness :
    (FileEvent.mk "e1" 86400 "/src/main.rs" FileEventType.created
        ∈ [FileEvent.mk "e1" 86400 "/src/main.rs" FileEventType.created])
    ∧ 1 ≤ (get_activity_summary
        [FileEvent.mk "e1" 86400 "/src/main.rs" FileEventType.created] 0 86400).total_events := by
  constructor
  · decide
  · exact (get_activity_summary_boundary
      [FileEvent.mk "e1" 86400 "/src/main.rs" FileEventType.created] 0 86400
      (FileEvent.mk "e1" 86400 "/src/main.rs" FileEventType.created)
      (by decide) (by decide) (by decide)).1

theorem daily_summary_fail (db : Database) (date : Int) (hf : db.read_fails = true) :
    daily_summary db date = DailySummary.mk date 0 0 0 none := by
  simp [daily_summary, Database.get_activity_summary_res, hf]

theorem daily_summary_no_activity (db : Database) (date : Int)
    (hno : ∀ e ∈ db.file_events,
      ¬ (dayStart date ≤ e.timestamp ∧ e.timestamp ≤ dayEnd date)) :
    daily_summary db date = DailySummary.mk date 0 0 0 none := by
  rcases hrf : db.read_fails with _ | _
  · have hfil : db.file_events.filter (inRange (dayStart date) (dayEnd date)) = [] := by
      refine List.filter_eq_nil_iff.mpr (fun e he hc => ?_)
      unfold inRange at hc
      simp only [Bool.and_eq_true, decide_eq_true_eq] at hc
      exact hno e he hc
    have hcnt : db.file_events.countP (inRange (dayStart date) (dayEnd date)) = 0 := by
      rw [List.countP_eq_length_filter, hfil]
      rfl
    have hcnt2 : db.file_events.countP
        (fun e => inRange (dayStart date) (dayEnd date) e
          && decide (e.event_type = FileEventType.modified)) = 0 := by
      have hle := List.countP_mono_left
        (l := db.file_events)
        (p := fun e => inRange (dayStart date) (dayEnd date) e
          && decide (e.event_type = FileEventType.modified))
        (q := inRange (dayStart date) (dayEnd date))
        (fun e _ h => by
          simp only [Bool.and_eq_true] at h
          exact h.1)
      omega
    have hcnt3 : db.file_events.countP
        (fun e => inRange (dayStart date) (dayEnd date) e
          && decide (e.event_type = FileEventType.created)) = 0 := by
      have hle := List.countP_mono_left
        (l := db.file_events)
        (p := fun e => inRange (dayStart date) (dayEnd date) e
          && decide (e.event_type = FileEventType.created))
        (q := inRange (dayStart date) (dayEnd date))
        (fun e _ h => by
          simp only [Bool.and_eq_true] at h
          exact h.1)
      omega
    have hma : most_active_dir db.file_events (dayStart date) (dayEnd date) = none := by
      unfold most_active_dir
      rw [hfil]
      rfl
    simp only [daily_summary, Database.get_activity_summary_res, hrf, Bool.false_eq_true,
      if_false, get_activity_summary]
    rw [hcnt, hcnt2, hcnt3, hma]
  · exact daily_summary_fail db date hrf

/-- C9: `daily_summary` never propagates an error: on an aggregate-query
failure it returns the all-zero summary with no most-active directory (whose
message is the canonical no-activity text), and for a day with zero file
events it returns `total_events = 0` and the canonical no-activity
message. -/
theorem daily_summary_never_fails :
    (∀ (db : Database) (date : Int), db.read_fails = true →
      daily_summary db date = DailySummary.mk date 0 0 0 none
      ∧ (daily_summary db date).to_message = "No activity recorded today.")
    ∧ (∀ (db : Database) (date : Int),
        (∀ e ∈ db.file_events,
          ¬ (dayStart date ≤ e.timestamp ∧ e.timestamp ≤ dayEnd date)) →
        (daily_summary db date).total_events = 0
        ∧ (daily_summary db date).to_message = "No activity recorded today.") := by
  constructor
  · intro db date hf
    have h := daily_summary_fail db date hf
    exact ⟨h, by rw [h]; rfl⟩
  · intro db date hno
    have h := daily_summary_no_activity db date hno
    exact ⟨by rw [h], by rw [h]; rfl⟩

theorem daily_summary_never_fails_witness :
    ((Database.mk [] [] true).read_fails = true
      ∧ (daily_summary (Database.mk [] [] true) 5).to_message = "No activity recorded today.")
    ∧ ((daily_summary (Database.mk [] [] false) 5).total_events = 0
      ∧ (daily_summary (Database.mk [] [] false) 5).to_message
          = "No activity recorded today.") := by
  constructor
  · exact ⟨rfl, (daily_summary_never_fails.1 (Database.mk [] [] true) 5 rfl).2⟩
  · exact daily_summary_never_fails.2 (Database.mk [] [] false) 5
      (fun e he => absurd he (List.not_mem_nil e))
